import Mathlib

/-!
Verification of the Beauty Contest game server.

This file gives a shallow embedding of the core game logic
(server/gameLogic.js) and of the in-memory room manager and its socket
entry points (room manager module), and proves properties of them.
Machine numbers are modelled as exact rationals, player and room state
as records, and the event-driven room lifecycle as a step interpreter
over an event list.
-/

namespace BC

/-- Room lifecycle phase, as the string field room.phase of the room
manager takes exactly these five values. -/
inductive Phase where
  | waiting
  | submission
  | reveal
  | scoring
  | finished
deriving DecidableEq, Repr

/-- A submitted choice record as built in processRound and submitChoice:
a numeric value and the submitting user id. -/
structure Choice where
  number : ℚ
  userId : String
deriving DecidableEq, Repr

/-- Player record of the room manager (addPlayerToRoom). -/
structure Player where
  socketId : Option String
  userId : String
  username : String
  avatar : String
  score : ℤ
  isEliminated : Bool
  hasSubmitted : Bool
  currentChoice : Option ℚ
  isReady : Bool
  isGuest : Bool
  isConnected : Bool
  disconnectedAt : Option ℕ
deriving DecidableEq, Repr

/-- Per-player score delta record returned by applyScoreChanges. -/
structure ScoreUpdate where
  scoreChange : ℤ
  newScore : ℤ
deriving DecidableEq, Repr

/-- Result record of validateChoice. -/
structure ValidationResult where
  valid : Bool
  reason : Option String
deriving DecidableEq, Repr

/-- calculateWinningNumber from gameLogic: sum the submitted numbers with
a left fold, divide by the count, multiply the average by 0.8.  Returns
the pair (average, winningNumber). -/
def calculateWinningNumber (choices : List Choice) : ℚ × ℚ :=
  let sum := choices.foldl (fun acc choice => acc + choice.number) 0
  let average := sum / (choices.length : ℚ)
  let winningNumber := average * 0.8
  (average, winningNumber)

/-- The loop of findWinner: walks the choice list keeping the closest
player seen so far; the initial distance Infinity is modelled by the
accumulator value none. -/
def findWinnerLoop (winningNumber : ℚ) :
    List Choice → Option String → Option ℚ → Option String
  | [], closestPlayer, _ => closestPlayer
  | choice :: rest, closestPlayer, closestDistance =>
    let distance := |choice.number - winningNumber|
    match closestDistance with
    | none => findWinnerLoop winningNumber rest (some choice.userId) (some distance)
    | some d =>
      if distance < d then
        findWinnerLoop winningNumber rest (some choice.userId) (some distance)
      else
        findWinnerLoop winningNumber rest closestPlayer closestDistance

/-- findWinner from gameLogic: the players argument is unused by the
source loop, which scans the choices only. -/
def findWinner (_players : List Player) (choices : List Choice)
    (winningNumber : ℚ) : Option String :=
  findWinnerLoop winningNumber choices none none

/-- checkExactMatch from gameLogic: true when some choice equals the
winning number exactly. -/
def checkExactMatch (choices : List Choice) (winningNumber : ℚ) : Bool :=
  choices.any (fun choice => choice.number == winningNumber)

/-- checkSpecialWin from gameLogic (rule 3): when a 0 and a 100 were both
submitted, the first submitter of 100 wins. -/
def checkSpecialWin (choices : List Choice) : Option String :=
  let hasZero := choices.any (fun c => c.number == 0)
  let has100 := choices.any (fun c => c.number == 100)
  if hasZero && has100 then
    match choices.find? (fun c => c.number == 100) with
    | some winner => some winner.userId
    | none => none
  else
    none

/-- applyScoreChanges from gameLogic: one update per player, in player
order; eliminated players are frozen at delta 0, the winner gains 1, the
rest take the penalty (-2 under rule 2 with an exact match, else -1). -/
def applyScoreChanges (players : List Player) (winnerId : Option String)
    (isExactMatch : Bool) (activeRules : List ℕ) : List (String × ScoreUpdate) :=
  let penalty : ℤ := if isExactMatch && activeRules.contains 2 then -2 else -1
  players.map (fun player =>
    if player.isEliminated then
      (player.userId, ⟨0, player.score⟩)
    else if some player.userId = winnerId then
      (player.userId, ⟨1, player.score + 1⟩)
    else
      (player.userId, ⟨penalty, player.score + penalty⟩))

/-- checkEliminations from gameLogic: ids of not yet eliminated players
whose score reached -10. -/
def checkEliminations (players : List Player) : List String :=
  (players.filter (fun p => !p.isEliminated && decide (p.score ≤ -10))).map
    Player.userId

/-- getActiveRules from gameLogic: rules 1 and 2 unlock at two
eliminations, rule 3 at three. -/
def getActiveRules (eliminationCount : ℕ) : List ℕ :=
  (if eliminationCount ≥ 2 then [1, 2] else []) ++
    (if eliminationCount ≥ 3 then [3] else [])

/-- validateChoice from gameLogic: out-of-range values are rejected;
under rule 1 a value equal to an already collected choice of another
user is rejected; everything else is valid. -/
def validateChoice (choice : ℚ) (allChoices : List Choice)
    (activeRules : List ℕ) (userId : String) : ValidationResult :=
  if choice < 0 ∨ choice > 100 then
    ⟨false, some "Number must be between 0 and 100"⟩
  else if activeRules.contains 1 then
    match allChoices.find? (fun c => c.number == choice && c.userId != userId) with
    | some _ => ⟨false, some "Duplicate numbers are invalid (Rule 1)"⟩
    | none => ⟨true, none⟩
  else
    ⟨true, none⟩

/-- isGameOver from gameLogic: at most one player still active. -/
def isGameOver (players : List Player) : Bool :=
  (players.filter (fun p => !p.isEliminated)).length ≤ 1

/-- In-memory room state of the room manager.  Timer handles and the
database record ids are outside the shallow embedding; timestamps are
abstract naturals supplied by the caller. -/
structure Room where
  lobbyId : String
  players : List Player
  roundNumber : ℕ
  phase : Phase
  activeRules : List ℕ
  eliminationCount : ℕ
  roundTimer : ℕ
  timeRemaining : ℕ
  roundStartTime : Option ℕ
  createdAt : ℕ
  lastActivity : ℕ
deriving DecidableEq, Repr

/-- Split a player list at the first element satisfying the predicate,
the shape shared by the find and findIndex followed by in-place
mutation or splice patterns of the room manager. -/
def splitBy (q : Player → Bool) : List Player → Option (List Player × Player × List Player)
  | [] => none
  | p :: rest =>
    if q p then some ([], p, rest)
    else (splitBy q rest).map (fun x => (p :: x.1, x.2.1, x.2.2))

/-- Replace the first player satisfying the predicate by its image under
f, as the source does by mutating the object returned by find. -/
def updateFirst (f : Player → Player) (q : Player → Bool) (l : List Player) :
    Option (List Player) :=
  (splitBy q l).map (fun x => x.1 ++ f x.2.1 :: x.2.2)

/-- Join payload handed to addPlayerToRoom. -/
structure PlayerData where
  socketId : String
  userId : String
  username : String
  avatar : String
  isGuest : Bool
deriving DecidableEq, Repr

/-- createRoom of the room manager: waiting phase, round 1, no players,
no rules, zero eliminations; a configured timer of 0 or absent falls
back to 60 as with the source expression roundTimer or 60. -/
def createRoom (lobbyId : String) (roundTimerCfg : Option ℕ) (now : ℕ) : Room :=
  let t := match roundTimerCfg with
    | some n => if n = 0 then 60 else n
    | none => 60
  { lobbyId := lobbyId
    players := []
    roundNumber := 1
    phase := .waiting
    activeRules := []
    eliminationCount := 0
    roundTimer := t
    timeRemaining := t
    roundStartTime := none
    createdAt := now
    lastActivity := now }

/-- The fresh player record addPlayerToRoom builds for a new user:
score 0, connected, not eliminated, not ready. -/
def freshPlayer (pd : PlayerData) : Player :=
  { socketId := some pd.socketId
    userId := pd.userId
    username := pd.username
    avatar := pd.avatar
    score := 0
    isEliminated := false
    hasSubmitted := false
    currentChoice := none
    isReady := false
    isGuest := pd.isGuest
    isConnected := true
    disconnectedAt := none }

/-- addPlayerToRoom: refresh lastActivity; if a player with this user id
already exists only its socket id is updated, otherwise a fresh player
record is appended. -/
def addPlayerToRoom (room : Room) (pd : PlayerData) (now : ℕ) : Room × Player :=
  let room := { room with lastActivity := now }
  match splitBy (fun p => p.userId == pd.userId) room.players with
  | some (pre, existing, suf) =>
    let updated := { existing with socketId := some pd.socketId }
    ({ room with players := pre ++ updated :: suf }, updated)
  | none =>
    let player := freshPlayer pd
    ({ room with players := room.players ++ [player] }, player)

/-- The disconnect marking removePlayerFromRoom applies during an active
game: connected flag cleared, disconnect timestamp recorded, socket
reference dropped. -/
def markDisconnected (p : Player) (now : ℕ) : Player :=
  { p with isConnected := false, disconnectedAt := some now, socketId := none }

/-- removePlayerFromRoom: looks the player up by socket id.  During an
active game the player is only marked disconnected; in the waiting or
finished phase the player is spliced out, and a waiting room left empty
is deleted (room component none). -/
def removePlayerFromRoom (room : Room) (socketId : String) (now : ℕ) :
    Option Room × Option Player :=
  match splitBy (fun p => p.socketId == some socketId) room.players with
  | none => (some room, none)
  | some (pre, player, suf) =>
    if room.phase ≠ .waiting ∧ room.phase ≠ .finished then
      let marked := markDisconnected player now
      (some { room with players := pre ++ marked :: suf }, some marked)
    else
      let players := pre ++ suf
      if players.isEmpty ∧ room.phase = .waiting then
        (none, some player)
      else
        (some { room with players := players }, some player)

/-- reconnectPlayer: restore the connection fields of the player with
this user id, leaving score and elimination state untouched. -/
def reconnectPlayer (room : Room) (userId socketId : String) : Room × Bool :=
  match updateFirst
      (fun p => { p with isConnected := true, socketId := some socketId, disconnectedAt := none })
      (fun p => p.userId == userId) room.players with
  | some players => ({ room with players := players }, true)
  | none => (room, false)

/-- startRound: reset the submissions of non-eliminated players, enter
the submission phase, reload the timer, and recompute the active rules
from the elimination count. -/
def startRound (room : Room) (now : ℕ) : Room :=
  let players := room.players.map (fun p =>
    if !p.isEliminated then { p with hasSubmitted := false, currentChoice := none } else p)
  { room with
    players := players
    lastActivity := now
    phase := .submission
    timeRemaining := room.roundTimer
    roundStartTime := some now
    activeRules := getActiveRules room.eliminationCount }

/-- The choice list submitChoice validates against: choices already
locked in by other non-eliminated players.  A stored choice is read
back from the player record; hasSubmitted implies the option is set in
every reachable state. -/
def collectOtherChoices (room : Room) (userId : String) : List Choice :=
  (room.players.filter (fun p => p.hasSubmitted && p.userId != userId && !p.isEliminated)).map
    (fun p => ⟨p.currentChoice.getD 0, p.userId⟩)

/-- Outcome record of submitChoice. -/
structure SubmitResult where
  success : Bool
  error : Option String
deriving DecidableEq, Repr

/-- Broadcast events emitted to the room by submitChoice. -/
inductive Broadcast where
  | playerSubmitted (userId username : String)
deriving DecidableEq, Repr

/-- submitChoice of the room manager: refreshes lastActivity, then
checks phase, player existence, connection, elimination, duplicate
submission, and the scoring engine validation, in source order; on
success stores the choice, marks the player submitted and emits the
player_submitted notice. -/
def submitChoice (room : Room) (userId : String) (choice : ℚ) (now : ℕ) :
    Room × SubmitResult × List Broadcast :=
  let room := { room with lastActivity := now }
  if room.phase ≠ .submission then
    (room, ⟨false, some "Not in submission phase"⟩, [])
  else
    match splitBy (fun p => p.userId == userId) room.players with
    | none => (room, ⟨false, some "Player not found"⟩, [])
    | some (pre, player, suf) =>
      if !player.isConnected then
        (room, ⟨false, some "You are disconnected. Please reconnect."⟩, [])
      else if player.isEliminated then
        (room, ⟨false, some "Player is eliminated"⟩, [])
      else if player.hasSubmitted then
        (room, ⟨false, some "Already submitted"⟩, [])
      else
        let validation := validateChoice choice (collectOtherChoices room userId)
          room.activeRules userId
        if validation.valid = false then
          (room, ⟨false, validation.reason⟩, [])
        else
          let stored := { player with currentChoice := some choice, hasSubmitted := true }
          ({ room with players := pre ++ stored :: suf }, ⟨true, none⟩,
            [.playerSubmitted userId player.username])

/-- The choice list processRound gathers: submitted, non-eliminated,
connected players with their stored values.  hasSubmitted implies a
stored option in every reachable state, so the filter plus map of the
source is a filterMap here. -/
def gatherChoices (room : Room) : List Choice :=
  room.players.filterMap (fun p =>
    if p.hasSubmitted && !p.isEliminated && p.isConnected then
      p.currentChoice.map (fun n => ⟨n, p.userId⟩)
    else none)

/-- Winner determination of processRound: the special win is consulted
only when rule 3 is active and, when it produces nobody, the closest
player to the winning number is selected. -/
def selectWinner (activeRules : List ℕ) (players : List Player)
    (choices : List Choice) (winningNumber : ℚ) : Option String :=
  match (if activeRules.contains 3 then checkSpecialWin choices else none) with
  | some winner => some winner
  | none => findWinner players choices winningNumber

/-- The data processRound computes for the reveal broadcast and the
deferred scoring call: round winner and exact-match flag. -/
def revealData (room : Room) : Option String × Bool :=
  let choices := gatherChoices room
  let wn := (calculateWinningNumber choices).2
  (selectWinner room.activeRules room.players choices wn,
    checkExactMatch choices wn)

/-- endGame: the room enters the finished phase; standings, statistics
and the deferred deletion are broadcast and persistence effects. -/
def endGame (room : Room) : Room :=
  { room with phase := .finished }

/-- Result of processRound: either the game ended for lack of eligible
choices or connected active players, or the round was revealed with the
computed average, winning number, winner and exact-match flag. -/
inductive ProcessRoundResult where
  | ended (room : Room)
  | revealed (room : Room) (average winningNumber : ℚ)
      (winnerId : Option String) (isExactMatch : Bool)
deriving Repr

/-- processRound: enter the reveal phase, gather the eligible choices,
end the game on abandonment, otherwise compute the winning number, the
winner (special win first when rule 3 is active) and the exact-match
flag for the reveal broadcast. -/
def processRound (room : Room) : ProcessRoundResult :=
  let room := { room with phase := .reveal }
  let choices := gatherChoices room
  if choices.length = 0 then
    .ended (endGame room)
  else if (room.players.filter (fun p => !p.isEliminated && p.isConnected)).length = 0 then
    .ended (endGame room)
  else
    let winnerId := (revealData room).1
    let (average, winningNumber) := calculateWinningNumber choices
    let isExactMatch := (revealData room).2
    .revealed room average winningNumber winnerId isExactMatch

/-- The room state left by processRound, whichever branch was taken. -/
def processRoundRoom (room : Room) : Room :=
  match processRound room with
  | .ended r => r
  | .revealed r _ _ _ _ => r

/-- Lookup in the update object built by applyScoreChanges: a JavaScript
object write per player, so a later write to the same key wins. -/
def objGet (updates : List (String × ScoreUpdate)) (uid : String) : Option ScoreUpdate :=
  updates.foldl (fun acc kv => if kv.1 == uid then some kv.2 else acc) none

/-- One iteration of the elimination loop of processScoring: find the
player with this id, set the eliminated flag and bump the counter. -/
def elimStep (room : Room) (uid : String) : Room :=
  match updateFirst (fun p => { p with isEliminated := true })
      (fun p => p.userId == uid) room.players with
  | some players =>
    { room with players := players, eliminationCount := room.eliminationCount + 1 }
  | none => room

/-- processScoring: enter the scoring phase, apply the score updates to
every player, then flag the newly eliminated players one by one,
bumping the elimination counter with each.  The active rules are not
recomputed here. -/
def processScoring (room : Room) (winnerId : Option String) (isExactMatch : Bool) : Room :=
  let room := { room with phase := .scoring }
  let scoreUpdates := applyScoreChanges room.players winnerId isExactMatch room.activeRules
  let players := room.players.map (fun p =>
    match objGet scoreUpdates p.userId with
    | some u => { p with score := u.newScore }
    | none => p)
  let room := { room with players := players }
  (checkEliminations room.players).foldl elimStep room

/-- Inbound events of the room lifecycle: the socket handlers, the timer
tick and the two deferred continuations scheduled by the round
pipeline. -/
inductive GEvent where
  | join (pd : PlayerData) (now : ℕ)
  | leave (socketId : String) (now : ℕ)
  | rejoin (userId socketId : String)
  | ready (userId : String) (value : Bool)
  | startGame (now : ℕ)
  | submit (userId : String) (choice : ℚ) (now : ℕ)
  | tick
  | allSubmittedProcess
  | scoreRound
  | afterScoring (now : ℕ)

/-- One step of the room state machine.  Guards mirror the socket
handlers: ready toggling and game start only from the waiting phase,
game start only with at least three connected players all ready; the
timer tick and the all-submitted shortcut only during submission; the
scoring continuation only from reveal, its follow-up only from scoring.
A result of none means the room was deleted or the event dropped. -/
def applyEvent : GEvent → Room → Option Room
  | .join pd now, room => some (addPlayerToRoom room pd now).1
  | .leave socketId now, room => (removePlayerFromRoom room socketId now).1
  | .rejoin userId socketId, room => some (reconnectPlayer room userId socketId).1
  | .ready userId value, room =>
    if room.phase = .waiting then
      match updateFirst (fun p => { p with isReady := value })
          (fun p => p.userId == userId) room.players with
      | some players => some { room with players := players }
      | none => none
    else none
  | .startGame now, room =>
    let connected := room.players.filter (fun p => p.isConnected)
    if room.phase = .waiting ∧ 3 ≤ connected.length ∧ connected.all (fun p => p.isReady) then
      some (startRound room now)
    else none
  | .submit userId choice now, room => some (submitChoice room userId choice now).1
  | .tick, room =>
    if room.phase = .submission then
      let room := { room with timeRemaining := room.timeRemaining - 1 }
      if room.timeRemaining = 0 then some (processRoundRoom room) else some room
    else none
  | .allSubmittedProcess, room =>
    let active := room.players.filter (fun p => !p.isEliminated && p.isConnected)
    if room.phase = .submission ∧ active.length ≠ 0 ∧ active.all (fun p => p.hasSubmitted) then
      some (processRoundRoom room)
    else none
  | .scoreRound, room =>
    if room.phase = .reveal then
      some (processScoring room (revealData room).1 (revealData room).2)
    else none
  | .afterScoring now, room =>
    if room.phase = .scoring then
      if isGameOver room.players then some (endGame room)
      else some (startRound { room with roundNumber := room.roundNumber + 1 } now)
    else none

/-- Run a list of events through the room state machine. -/
def runTrace (room : Room) : List GEvent → Option Room
  | [] => some room
  | e :: rest =>
    match applyEvent e room with
    | some r => runTrace r rest
    | none => none

/-- A room state is reachable when some event trace leads to it from a
freshly created room. -/
def Reachable (r : Room) : Prop :=
  ∃ lobbyId roundTimerCfg now evts,
    runTrace (createRoom lobbyId roundTimerCfg now) evts = some r

/-- Number of players carrying the eliminated flag. -/
def countEliminated (players : List Player) : ℕ :=
  players.countP (fun p => p.isEliminated)

/-- Inductive invariant of the room state machine: user ids are unique;
a waiting room has no eliminations; in the submission, reveal and
scoring phases the elimination counter agrees with the flags; and up to
the reveal phase the active rules agree with the rule-unlock function
applied to the elimination counter. -/
def RoomInv (r : Room) : Prop :=
  (r.players.map Player.userId).Nodup ∧
  (r.phase = .waiting → r.eliminationCount = 0 ∧ ∀ p ∈ r.players, p.isEliminated = false) ∧
  (r.phase ≠ .waiting → r.phase ≠ .finished →
    r.eliminationCount = countEliminated r.players) ∧
  (r.phase = .waiting ∨ r.phase = .submission ∨ r.phase = .reveal →
    r.activeRules = getActiveRules r.eliminationCount)

/-- A demo player record for concrete traces. -/
def demoPlayer (uid sid : String) (sc : ℤ) (ready submitted : Bool)
    (choice : Option ℚ) (elim : Bool) : Player :=
  { socketId := some sid
    userId := uid
    username := uid
    avatar := ""
    score := sc
    isEliminated := elim
    hasSubmitted := submitted
    currentChoice := choice
    isReady := ready
    isGuest := true
    isConnected := true
    disconnectedAt := none }

/-- Room state at the start of a submission phase in the three-player
demo game, with the given scores and round number. -/
def mkRound (a b c : ℤ) (n : ℕ) : Room :=
  { lobbyId := "L"
    players := [demoPlayer "A" "s1" a true false none false,
                demoPlayer "B" "s2" b true false none false,
                demoPlayer "C" "s3" c true false none false]
    roundNumber := n
    phase := .submission
    activeRules := []
    eliminationCount := 0
    roundTimer := 60
    timeRemaining := 60
    roundStartTime := some 0
    createdAt := 0
    lastActivity := 0 }

/-- Trace creating the three-player demo game: three joins, three ready
toggles, game start. -/
def setupTrace : List GEvent :=
  [.join ⟨"s1", "A", "A", "", true⟩ 0,
   .join ⟨"s2", "B", "B", "", true⟩ 0,
   .join ⟨"s3", "C", "C", "", true⟩ 0,
   .ready "A" true, .ready "B" true, .ready "C" true,
   .startGame 0]

/-- One demo round: A submits 4, B and C submit 10, the round resolves
with A winning (winning number 32 divided by 5), scores move by +1, -1,
-1, and the next round starts. -/
def roundEvents : List GEvent :=
  [.submit "A" 4 0, .submit "B" 10 0, .submit "C" 10 0,
   .allSubmittedProcess, .scoreRound, .afterScoring 0]

/-- The tenth demo round, stopped at the scoring phase. -/
def lastRoundEvents : List GEvent :=
  [.submit "A" 4 0, .submit "B" 10 0, .submit "C" 10 0,
   .allSubmittedProcess, .scoreRound]

/-- The scoring-phase state after the tenth demo round: B and C just
dropped to -10 and were both eliminated, so the elimination counter is
2, while the active rules still reflect the zero eliminations the round
started with. -/
def staleRulesRoom : Room :=
  { lobbyId := "L"
    players := [demoPlayer "A" "s1" 10 true true (some 4) false,
                demoPlayer "B" "s2" (-10) true true (some 10) true,
                demoPlayer "C" "s3" (-10) true true (some 10) true]
    roundNumber := 10
    phase := .scoring
    activeRules := []
    eliminationCount := 2
    roundTimer := 60
    timeRemaining := 60
    roundStartTime := some 0
    createdAt := 0
    lastActivity := 0 }

theorem splitBy_eq_some (q : Player → Bool) :
    ∀ (l : List Player) (pre : List Player) (p : Player) (suf : List Player),
      splitBy q l = some (pre, p, suf) →
      l = pre ++ p :: suf ∧ q p = true ∧ ∀ x ∈ pre, q x = false := by
  intro l
  induction l with
  | nil => intro pre p suf h; simp [splitBy] at h
  | cons a rest ih =>
    intro pre p suf h
    by_cases ha : q a
    · simp [splitBy, ha] at h
      obtain ⟨h1, h2, h3⟩ := h
      subst h1; subst h2; subst h3
      exact ⟨rfl, ha, by simp⟩
    · simp [splitBy, ha] at h
      cases hr : splitBy q rest with
      | none => rw [hr] at h; simp at h
      | some x =>
        obtain ⟨pre2, p2, suf2⟩ := x
        rw [hr] at h
        simp at h
        obtain ⟨x, ⟨hpa, hpb, hpc⟩, hx3⟩ := h
        obtain ⟨hl, hq, hpre⟩ := ih pre2 p2 suf2 hr
        subst hpb; subst hpc; subst hpa; subst hx3
        refine ⟨by simp [hl], hq, ?_⟩
        intro y hy
        rcases List.mem_cons.1 hy with hy | hy
        · subst hy; simpa using ha
        · exact hpre y hy

theorem splitBy_isSome_of_exists (q : Player → Bool) :
    ∀ (l : List Player), (∃ x ∈ l, q x = true) → (splitBy q l).isSome := by
  intro l
  induction l with
  | nil => intro h; simp at h
  | cons a rest ih =>
    intro h
    by_cases ha : q a
    · simp [splitBy, ha]
    · obtain ⟨x, hx, hqx⟩ := h
      rcases List.mem_cons.1 hx with hx | hx
      · subst hx; exact absurd hqx ha
      · have := ih ⟨x, hx, hqx⟩
        simp [splitBy, ha]
        cases hr : splitBy q rest with
        | none => rw [hr] at this; simp at this
        | some y => simp

theorem splitBy_append_of (q : Player → Bool) (p : Player) (hp : q p = true) :
    ∀ (pre : List Player), (∀ x ∈ pre, q x = false) →
      ∀ suf, splitBy q (pre ++ p :: suf) = some (pre, p, suf) := by
  intro pre
  induction pre with
  | nil => intro _ suf; simp [splitBy, hp]
  | cons a rest ih =>
    intro hall suf
    have ha : q a = false := hall a (by simp)
    have hrest : ∀ x ∈ rest, q x = false := fun x hx => hall x (by simp [hx])
    simp [splitBy, ha, ih hrest suf]

theorem find?_decomp {α : Type} (q : α → Bool) :
    ∀ (l : List α) (c : α), l.find? q = some c →
      ∃ pre suf, l = pre ++ c :: suf ∧ q c = true ∧ ∀ x ∈ pre, q x = false := by
  intro l
  induction l with
  | nil => intro c h; simp at h
  | cons a rest ih =>
    intro c h
    by_cases ha : q a
    · rw [List.find?_cons_of_pos _ ha] at h
      obtain rfl : a = c := by simpa using h
      exact ⟨[], rest, rfl, ha, by simp⟩
    · rw [List.find?_cons_of_neg _ ha] at h
      obtain ⟨pre, suf, hl, hq, hpre⟩ := ih c h
      refine ⟨a :: pre, suf, by simp [hl], hq, ?_⟩
      intro x hx
      rcases List.mem_cons.1 hx with hx | hx
      · subst hx; simpa using ha
      · exact hpre x hx

theorem foldl_add_number (l : List Choice) :
    ∀ a : ℚ, l.foldl (fun acc c => acc + c.number) a = a + (l.map Choice.number).sum := by
  induction l with
  | nil => intro a; simp
  | cons c rest ih =>
    intro a
    simp only [List.foldl_cons, List.map_cons, List.sum_cons]
    rw [ih (a + c.number), add_assoc]

theorem map_userId_pointwise (g : Player → Player)
    (h : ∀ p, (g p).userId = p.userId) (l : List Player) :
    (l.map g).map Player.userId = l.map Player.userId := by
  induction l with
  | nil => rfl
  | cons a rest ih => simp [h, ih]

theorem countEliminated_map_pointwise (g : Player → Player)
    (h : ∀ p, (g p).isEliminated = p.isEliminated) (l : List Player) :
    countEliminated (l.map g) = countEliminated l := by
  induction l with
  | nil => rfl
  | cons a rest ih =>
    simp only [countEliminated, List.map_cons, List.countP_cons] at *
    rw [ih, h]

theorem runTrace_append (xs ys : List GEvent) :
    ∀ r : Room, runTrace r (xs ++ ys) = (runTrace r xs).bind (fun r2 => runTrace r2 ys) := by
  induction xs with
  | nil => intro r; simp [runTrace]
  | cons e rest ih =>
    intro r
    simp only [List.cons_append, runTrace]
    cases applyEvent e r with
    | none => simp
    | some r2 => simpa using ih r2

theorem runTrace_chain {r r2 : Room} {xs : List GEvent} (ys : List GEvent)
    (h1 : runTrace r xs = some r2) :
    runTrace r (xs ++ ys) = runTrace r2 ys := by
  rw [runTrace_append, h1]
  rfl

theorem elimStep_spec (r : Room) (uid : String)
    (hnd : (r.players.map Player.userId).Nodup)
    (hex : ∃ p ∈ r.players, p.userId = uid ∧ p.isEliminated = false) :
    (elimStep r uid).players.map Player.userId = r.players.map Player.userId ∧
    countEliminated (elimStep r uid).players = countEliminated r.players + 1 ∧
    (elimStep r uid).eliminationCount = r.eliminationCount + 1 ∧
    (elimStep r uid).phase = r.phase ∧
    (elimStep r uid).activeRules = r.activeRules ∧
    ∀ uid2, uid2 ≠ uid →
      (∃ p ∈ r.players, p.userId = uid2 ∧ p.isEliminated = false) →
      ∃ p ∈ (elimStep r uid).players, p.userId = uid2 ∧ p.isEliminated = false := by
  obtain ⟨p, hp, huid, helim⟩ := hex
  have hq : (p.userId == uid) = true := by simp [huid]
  have hsome := splitBy_isSome_of_exists (fun x => x.userId == uid) r.players ⟨p, hp, hq⟩
  obtain ⟨⟨pre, p0, suf⟩, hsp⟩ := Option.isSome_iff_exists.1 hsome
  obtain ⟨hdecomp, hq0, hpre⟩ := splitBy_eq_some _ _ _ _ _ hsp
  have huid0 : p0.userId = uid := by simpa using hq0
  have hp0mem : p0 ∈ r.players := by
    rw [hdecomp]; exact List.mem_append_right _ (List.mem_cons_self _ _)
  have hpp0 : p = p0 :=
    List.inj_on_of_nodup_map hnd hp hp0mem (by rw [huid, huid0])
  have helim0 : p0.isEliminated = false := hpp0 ▸ helim
  have hstep : elimStep r uid = { r with
      players := pre ++ { p0 with isEliminated := true } :: suf,
      eliminationCount := r.eliminationCount + 1 } := by
    unfold elimStep updateFirst
    rw [hsp]
    rfl
  rw [hstep]
  refine ⟨?_, ?_, rfl, rfl, rfl, ?_⟩
  · rw [hdecomp]
    simp
  · rw [hdecomp]
    simp [countEliminated, List.countP_append, List.countP_cons, helim0]
    omega
  · intro uid2 hne hex2
    obtain ⟨p2, hp2, hu2, he2⟩ := hex2
    rw [hdecomp] at hp2
    rcases List.mem_append.1 hp2 with h2 | h2
    · exact ⟨p2, List.mem_append_left _ h2, hu2, he2⟩
    · rcases List.mem_cons.1 h2 with h2 | h2
      · exact absurd (by rw [← hu2, h2, huid0]) hne
      · exact ⟨p2, List.mem_append_right _ (List.mem_cons_of_mem _ h2), hu2, he2⟩

theorem elim_foldl (uids : List String) :
    ∀ (r : Room), (r.players.map Player.userId).Nodup → uids.Nodup →
      (∀ uid ∈ uids, ∃ p ∈ r.players, p.userId = uid ∧ p.isEliminated = false) →
      (uids.foldl elimStep r).players.map Player.userId = r.players.map Player.userId ∧
      countEliminated (uids.foldl elimStep r).players =
        countEliminated r.players + uids.length ∧
      (uids.foldl elimStep r).eliminationCount = r.eliminationCount + uids.length ∧
      (uids.foldl elimStep r).phase = r.phase ∧
      (uids.foldl elimStep r).activeRules = r.activeRules := by
  induction uids with
  | nil => intro r _ _ _; simp
  | cons uid rest ih =>
    intro r hnd hnodup hall
    have hex := hall uid (by simp)
    obtain ⟨hmap, hcount, hctr, hph, hrules, hkeep⟩ := elimStep_spec r uid hnd hex
    have hnd2 : ((elimStep r uid).players.map Player.userId).Nodup := by
      rw [hmap]; exact hnd
    have hnodup2 : rest.Nodup := (List.nodup_cons.1 hnodup).2
    have hnotin : uid ∉ rest := (List.nodup_cons.1 hnodup).1
    have hall2 : ∀ u ∈ rest, ∃ p ∈ (elimStep r uid).players,
        p.userId = u ∧ p.isEliminated = false := by
      intro u hu
      exact hkeep u (fun he => hnotin (he ▸ hu)) (hall u (by simp [hu]))
    obtain ⟨ihmap, ihcount, ihctr, ihph, ihrules⟩ := ih (elimStep r uid) hnd2 hnodup2 hall2
    simp only [List.foldl_cons]
    refine ⟨by rw [ihmap, hmap], ?_, ?_, by rw [ihph, hph], by rw [ihrules, hrules]⟩
    · rw [ihcount, hcount]; simp; omega
    · rw [ihctr, hctr]; simp; omega

theorem checkEliminations_nodup (players : List Player)
    (hnd : (players.map Player.userId).Nodup) : (checkEliminations players).Nodup := by
  unfold checkEliminations
  exact ((List.filter_sublist players).map Player.userId).nodup hnd

theorem checkEliminations_mem (players : List Player) (uid : String)
    (h : uid ∈ checkEliminations players) :
    ∃ p ∈ players, p.userId = uid ∧ p.isEliminated = false := by
  unfold checkEliminations at h
  obtain ⟨p, hp, huid⟩ := List.mem_map.1 h
  obtain ⟨hmem, hflag⟩ := List.mem_filter.1 hp
  refine ⟨p, hmem, huid, ?_⟩
  simp at hflag
  exact hflag.1

theorem processScoring_spec (r : Room) (w : Option String) (m : Bool)
    (hnd : (r.players.map Player.userId).Nodup) :
    ∃ K, (processScoring r w m).phase = .scoring ∧
      (processScoring r w m).activeRules = r.activeRules ∧
      (processScoring r w m).players.map Player.userId = r.players.map Player.userId ∧
      (processScoring r w m).eliminationCount = r.eliminationCount + K ∧
      countEliminated (processScoring r w m).players = countEliminated r.players + K := by
  unfold processScoring
  set updates := applyScoreChanges ({ r with phase := Phase.scoring }).players w m
    ({ r with phase := Phase.scoring }).activeRules with hupd
  set g : Player → Player := fun p =>
    match objGet updates p.userId with
    | some u => { p with score := u.newScore }
    | none => p with hg
  have hguid : ∀ p, (g p).userId = p.userId := by
    intro p
    cases h : objGet updates p.userId <;> simp [hg, h]
  have hgelim : ∀ p, (g p).isEliminated = p.isEliminated := by
    intro p
    cases h : objGet updates p.userId <;> simp [hg, h]
  set r2 : Room := { r with phase := Phase.scoring, players := r.players.map g } with hr2
  have hmap2 : r2.players.map Player.userId = r.players.map Player.userId :=
    map_userId_pointwise g hguid r.players
  have hcount2 : countEliminated r2.players = countEliminated r.players :=
    countEliminated_map_pointwise g hgelim r.players
  have hnd2 : (r2.players.map Player.userId).Nodup := by rw [hmap2]; exact hnd
  obtain ⟨hmap3, hcount3, hctr3, hph3, hrules3⟩ :=
    elim_foldl (checkEliminations r2.players) r2 hnd2
      (checkEliminations_nodup r2.players hnd2)
      (fun uid hu => checkEliminations_mem r2.players uid hu)
  refine ⟨(checkEliminations r2.players).length, ?_, ?_, ?_, ?_, ?_⟩
  · rw [hph3]
  · rw [hrules3]
  · rw [hmap3, hmap2]
  · rw [hctr3]
  · rw [hcount3, hcount2]

theorem inv_players_congr {r r2 : Room} (hinv : RoomInv r)
    (hphase : r2.phase = r.phase) (hrules : r2.activeRules = r.activeRules)
    (hcount : r2.eliminationCount = r.eliminationCount)
    (hmap : r2.players.map Player.userId = r.players.map Player.userId)
    (hcnt : countEliminated r2.players = countEliminated r.players)
    (hflags : (∀ p ∈ r.players, p.isEliminated = false) →
      ∀ p ∈ r2.players, p.isEliminated = false) :
    RoomInv r2 := by
  obtain ⟨hnd, hw, hc, ha⟩ := hinv
  refine ⟨by rw [hmap]; exact hnd, ?_, ?_, ?_⟩
  · intro h
    rw [hphase] at h
    obtain ⟨h1, h2⟩ := hw h
    exact ⟨by rw [hcount]; exact h1, hflags h2⟩
  · intro h1 h2
    rw [hphase] at h1 h2
    rw [hcount, hcnt]
    exact hc h1 h2
  · intro h
    rw [hphase] at h
    rw [hrules, hcount]
    exact ha h

theorem decomp_facts (pre suf : List Player) (p p2 : Player)
    (huid : p2.userId = p.userId) (helim : p2.isEliminated = p.isEliminated) :
    ((pre ++ p2 :: suf).map Player.userId = (pre ++ p :: suf).map Player.userId) ∧
    countEliminated (pre ++ p2 :: suf) = countEliminated (pre ++ p :: suf) ∧
    ((∀ q ∈ pre ++ p :: suf, q.isEliminated = false) →
      ∀ q ∈ pre ++ p2 :: suf, q.isEliminated = false) := by
  refine ⟨by simp [huid],
    by simp [countEliminated, List.countP_append, List.countP_cons, helim], ?_⟩
  intro hall q hq
  rcases List.mem_append.1 hq with h | h
  · exact hall q (List.mem_append_left _ h)
  · rcases List.mem_cons.1 h with h | h
    · subst h
      rw [helim]
      exact hall p (List.mem_append_right _ (List.mem_cons_self _ _))
    · exact hall q (List.mem_append_right _ (List.mem_cons_of_mem _ h))

theorem inv_endGame (r : Room) (hinv : RoomInv r) : RoomInv (endGame r) := by
  obtain ⟨hnd, _, _, _⟩ := hinv
  refine ⟨hnd, ?_, ?_, ?_⟩
  · intro h; exact absurd h (by simp [endGame])
  · intro _ h2; exact absurd rfl h2
  · intro h
    rcases h with h | h | h <;> simp [endGame] at h

theorem inv_startRound (r : Room) (now : ℕ) (hinv : RoomInv r)
    (hcnt : r.eliminationCount = countEliminated r.players) :
    RoomInv (startRound r now) := by
  obtain ⟨hnd, _, _, _⟩ := hinv
  unfold startRound
  set g := fun p : Player =>
    if !p.isEliminated then { p with hasSubmitted := false, currentChoice := none } else p
    with hg
  have hguid : ∀ p, (g p).userId = p.userId := by
    intro p; by_cases h : p.isEliminated <;> simp [hg, h]
  have hgelim : ∀ p, (g p).isEliminated = p.isEliminated := by
    intro p; by_cases h : p.isEliminated <;> simp [hg, h]
  refine ⟨?_, ?_, ?_, ?_⟩
  · rw [map_userId_pointwise g hguid]; exact hnd
  · intro h; exact absurd h (by simp)
  · intro _ _
    rw [countEliminated_map_pointwise g hgelim]
    exact hcnt
  · intro _; rfl

theorem processRound_shape (r : Room) :
    processRound r = .ended { r with phase := .finished } ∨
    ∃ a b wid m, processRound r = .revealed { r with phase := .reveal } a b wid m := by
  simp only [processRound, endGame]
  split
  · left; rfl
  · split
    · left; rfl
    · right
      cases hc : calculateWinningNumber (gatherChoices { r with phase := Phase.reveal }) with
      | mk a b => exact ⟨_, _, _, _, rfl⟩

theorem processRoundRoom_shape (r : Room) :
    processRoundRoom r = { r with phase := .reveal } ∨
    processRoundRoom r = { r with phase := .finished } := by
  unfold processRoundRoom
  rcases processRound_shape r with h | ⟨a, b, wid, m, h⟩ <;> rw [h]
  · right; rfl
  · left; rfl

theorem updateFirst_eq_some (f : Player → Player) (q : Player → Bool)
    (l l2 : List Player) (h : updateFirst f q l = some l2) :
    ∃ pre p suf, l = pre ++ p :: suf ∧ l2 = pre ++ f p :: suf := by
  unfold updateFirst at h
  cases hsp : splitBy q l with
  | none => rw [hsp] at h; simp at h
  | some x =>
    obtain ⟨pre, p, suf⟩ := x
    rw [hsp] at h
    simp at h
    obtain ⟨hdec, _, _⟩ := splitBy_eq_some q l pre p suf hsp
    exact ⟨pre, p, suf, hdec, h.symm⟩

theorem inv_updateFirst {r r2 : Room} (f : Player → Player) (q : Player → Bool)
    (hfu : ∀ p, (f p).userId = p.userId)
    (hfe : ∀ p, (f p).isEliminated = p.isEliminated)
    (hinv : RoomInv r)
    (hph : r2.phase = r.phase) (hrules : r2.activeRules = r.activeRules)
    (hcount : r2.eliminationCount = r.eliminationCount)
    (h : updateFirst f q r.players = some r2.players) : RoomInv r2 := by
  obtain ⟨pre, p, suf, hdec, hl2⟩ := updateFirst_eq_some f q _ _ h
  obtain ⟨m1, m2, m3⟩ := decomp_facts pre suf p (f p) (hfu p) (hfe p)
  refine inv_players_congr hinv hph hrules hcount ?_ ?_ ?_
  · rw [hl2, hdec]; exact m1
  · rw [hl2, hdec]; exact m2
  · intro hall
    rw [hl2]
    rw [hdec] at hall
    exact m3 hall

theorem inv_processRoundRoom (r : Room) (hinv : RoomInv r)
    (hph : r.phase = .submission) : RoomInv (processRoundRoom r) := by
  obtain ⟨hnd, hw, hc, ha⟩ := hinv
  rcases processRoundRoom_shape r with h | h <;> rw [h]
  · refine ⟨hnd, ?_, ?_, ?_⟩
    · intro hwait; exact absurd hwait (by simp)
    · intro _ _
      exact hc (by rw [hph]; simp) (by rw [hph]; simp)
    · intro _
      exact ha (Or.inr (Or.inl hph))
  · refine ⟨hnd, ?_, ?_, ?_⟩
    · intro hwait; exact absurd hwait (by simp)
    · intro _ h2; exact absurd rfl h2
    · intro hx
      rcases hx with hx | hx | hx <;> simp at hx

theorem submitChoice_room_cases (r : Room) (uid : String) (ch : ℚ) (now : ℕ) :
    (submitChoice r uid ch now).1 = { r with lastActivity := now } ∨
    ∃ pre p suf, splitBy (fun q => q.userId == uid) r.players = some (pre, p, suf) ∧
      (submitChoice r uid ch now).1 =
        { r with
          lastActivity := now
          players := pre ++ { p with currentChoice := some ch, hasSubmitted := true } :: suf } := by
  simp only [submitChoice]
  split
  · left; rfl
  · split
    · left; rfl
    · rename_i x pre p suf hsp
      split
      · left; rfl
      · split
        · left; rfl
        · split
          · left; rfl
          · split
            · left; rfl
            · right; exact ⟨pre, p, suf, hsp, rfl⟩

theorem removePlayer_room_cases (r : Room) (sid : String) (now : ℕ) :
    (removePlayerFromRoom r sid now).1 = some r ∨
    (∃ pre p suf, r.players = pre ++ p :: suf ∧
      (removePlayerFromRoom r sid now).1 =
        some { r with players := pre ++ markDisconnected p now :: suf }) ∨
    ((r.phase = .waiting ∨ r.phase = .finished) ∧
      ∃ pre p suf, r.players = pre ++ p :: suf ∧
        ((removePlayerFromRoom r sid now).1 = none ∨
          (removePlayerFromRoom r sid now).1 = some { r with players := pre ++ suf })) := by
  simp only [removePlayerFromRoom]
  split
  · left; rfl
  · rename_i x pre p suf hsp
    obtain ⟨hdec, _, _⟩ := splitBy_eq_some _ _ _ _ _ hsp
    split
    · right; left; exact ⟨pre, p, suf, hdec, rfl⟩
    · rename_i hcond
      have hwf : r.phase = .waiting ∨ r.phase = .finished := by
        by_cases h1 : r.phase = Phase.waiting
        · exact Or.inl h1
        · by_cases h2 : r.phase = Phase.finished
          · exact Or.inr h2
          · exact absurd ⟨h1, h2⟩ hcond
      right; right
      refine ⟨hwf, pre, p, suf, hdec, ?_⟩
      split
      · left; rfl
      · right; rfl

theorem addPlayer_room_cases (r : Room) (pd : PlayerData) (now : ℕ) :
    (∃ pre p suf, r.players = pre ++ p :: suf ∧
      (addPlayerToRoom r pd now).1 =
        { r with
          lastActivity := now
          players := pre ++ { p with socketId := some pd.socketId } :: suf }) ∨
    ((∀ q ∈ r.players, q.userId ≠ pd.userId) ∧
      (addPlayerToRoom r pd now).1 =
        { r with
          lastActivity := now
          players := r.players ++ [freshPlayer pd] }) := by
  simp only [addPlayerToRoom]
  cases hsp : splitBy (fun p => p.userId == pd.userId) r.players with
  | none =>
    right
    refine ⟨?_, rfl⟩
    intro q hq hequid
    have hex : (splitBy (fun p => p.userId == pd.userId) r.players).isSome :=
      splitBy_isSome_of_exists _ _ ⟨q, hq, by simp [hequid]⟩
    rw [hsp] at hex
    simp at hex
  | some x =>
    obtain ⟨pre, p, suf⟩ := x
    obtain ⟨hdec, _, _⟩ := splitBy_eq_some _ _ _ _ _ hsp
    left
    exact ⟨pre, p, suf, hdec, rfl⟩

theorem applyEvent_inv {e : GEvent} {r r2 : Room}
    (h : applyEvent e r = some r2) (hinv : RoomInv r) : RoomInv r2 := by
  have hnd := hinv.1
  have hw := hinv.2.1
  have hc := hinv.2.2.1
  have ha := hinv.2.2.2
  cases e with
  | join pd now =>
    simp only [applyEvent, Option.some.injEq] at h
    subst h
    rcases addPlayer_room_cases r pd now with ⟨pre, p, suf, hdec, heq⟩ | ⟨hnotin, heq⟩
    · rw [heq]
      obtain ⟨m1, m2, m3⟩ := decomp_facts pre suf p { p with socketId := some pd.socketId } rfl rfl
      refine inv_players_congr hinv rfl rfl rfl ?_ ?_ ?_
      · show (pre ++ _ :: suf).map Player.userId = _
        rw [hdec]; exact m1
      · show countEliminated (pre ++ _ :: suf) = _
        rw [hdec]; exact m2
      · intro hall
        rw [hdec] at hall
        exact m3 hall
    · rw [heq]
      refine ⟨?_, ?_, ?_, ?_⟩
      · show ((r.players ++ [freshPlayer pd]).map Player.userId).Nodup
        rw [List.map_append]
        rw [List.nodup_append]
        refine ⟨hnd, by simp [freshPlayer], ?_⟩
        intro a haa hb
        simp [freshPlayer] at hb
        obtain ⟨q, hq, hequid⟩ := List.mem_map.1 haa
        rw [hb] at hequid
        exact hnotin q hq hequid
      · intro hph
        obtain ⟨h1, h2⟩ := hw hph
        refine ⟨h1, ?_⟩
        intro q hq
        rcases List.mem_append.1 hq with hmem | hmem
        · exact h2 q hmem
        · simp at hmem
          rw [hmem]
          rfl
      · intro h1 h2
        show r.eliminationCount = countEliminated (r.players ++ [freshPlayer pd])
        rw [countEliminated, List.countP_append]
        have : List.countP (fun p => p.isEliminated) [freshPlayer pd] = 0 := by
          simp [freshPlayer]
        rw [this]
        exact hc h1 h2
      · intro hph
        exact ha hph
  | leave sid now =>
    simp only [applyEvent] at h
    rcases removePlayer_room_cases r sid now with h0 | ⟨pre, p, suf, hdec, h0⟩ |
        ⟨hwf, pre, p, suf, hdec, h0 | h0⟩
    · rw [h0] at h
      obtain rfl : r = r2 := by simpa using h
      exact hinv
    · rw [h0] at h
      obtain rfl : ({ r with players := pre ++ markDisconnected p now :: suf } : Room) = r2 := by
        simpa using h
      obtain ⟨m1, m2, m3⟩ := decomp_facts pre suf p (markDisconnected p now) rfl rfl
      refine inv_players_congr hinv rfl rfl rfl ?_ ?_ ?_
      · show (pre ++ _ :: suf).map Player.userId = _
        rw [hdec]; exact m1
      · show countEliminated (pre ++ _ :: suf) = _
        rw [hdec]; exact m2
      · intro hall
        rw [hdec] at hall
        exact m3 hall
    · rw [h0] at h; simp at h
    · rw [h0] at h
      obtain rfl : ({ r with players := pre ++ suf } : Room) = r2 := by simpa using h
      have hsub : (pre ++ suf).Sublist (pre ++ p :: suf) :=
        (List.sublist_cons_self p suf).append_left pre
      refine ⟨?_, ?_, ?_, ?_⟩
      · show ((pre ++ suf).map Player.userId).Nodup
        refine ((hsub.map Player.userId).nodup ?_)
        rw [← hdec]
        exact hnd
      · intro hph
        obtain ⟨h1, h2⟩ := hw hph
        refine ⟨h1, ?_⟩
        intro q hq
        exact h2 q (by rw [hdec]; exact hsub.mem hq)
      · intro h1 h2
        rcases hwf with hx | hx
        · exact absurd hx h1
        · exact absurd hx h2
      · intro hph
        rcases hwf with hx | hx
        · exact ha (Or.inl hx)
        · rcases hph with hy | hy | hy <;> rw [hx] at hy <;> simp at hy
  | rejoin uid sid =>
    simp only [applyEvent, reconnectPlayer] at h
    cases hu : updateFirst
        (fun p => { p with isConnected := true, socketId := some sid, disconnectedAt := none })
        (fun p => p.userId == uid) r.players with
    | none =>
      rw [hu] at h
      obtain rfl : r = r2 := by simpa using h
      exact hinv
    | some players2 =>
      rw [hu] at h
      obtain rfl : ({ r with players := players2 } : Room) = r2 := by simpa using h
      exact inv_updateFirst
        (fun p => { p with isConnected := true, socketId := some sid, disconnectedAt := none })
        (fun p => p.userId == uid) (fun p => rfl) (fun p => rfl) hinv rfl rfl rfl hu
  | ready uid b =>
    simp only [applyEvent] at h
    split at h
    · rename_i hph
      cases hu : updateFirst (fun p => { p with isReady := b })
          (fun p => p.userId == uid) r.players with
      | none => rw [hu] at h; simp at h
      | some players2 =>
        rw [hu] at h
        obtain rfl : ({ r with players := players2 } : Room) = r2 := by simpa using h
        exact inv_updateFirst (fun p => { p with isReady := b })
          (fun p => p.userId == uid) (fun p => rfl) (fun p => rfl) hinv rfl rfl rfl hu
    · simp at h
  | startGame now =>
    simp only [applyEvent] at h
    split at h
    · rename_i hguard
      obtain rfl : startRound r now = r2 := by simpa using h
      obtain ⟨h1, h2⟩ := hw hguard.1
      refine inv_startRound r now hinv ?_
      rw [h1]
      symm
      rw [countEliminated, List.countP_eq_zero]
      intro p hp
      simp [h2 p hp]
    · simp at h
  | submit uid ch now =>
    simp only [applyEvent, Option.some.injEq] at h
    subst h
    rcases submitChoice_room_cases r uid ch now with h0 | ⟨pre, p, suf, hsp, h0⟩
    · rw [h0]
      exact inv_players_congr hinv rfl rfl rfl rfl rfl (fun x => x)
    · rw [h0]
      obtain ⟨hdec, _, _⟩ := splitBy_eq_some _ _ _ _ _ hsp
      obtain ⟨m1, m2, m3⟩ := decomp_facts pre suf p
        { p with currentChoice := some ch, hasSubmitted := true } rfl rfl
      refine inv_players_congr hinv rfl rfl rfl ?_ ?_ ?_
      · show (pre ++ _ :: suf).map Player.userId = _
        rw [hdec]; exact m1
      · show countEliminated (pre ++ _ :: suf) = _
        rw [hdec]; exact m2
      · intro hall
        rw [hdec] at hall
        exact m3 hall
  | tick =>
    simp only [applyEvent] at h
    split at h
    · rename_i hph
      split at h
      · obtain rfl : processRoundRoom { r with timeRemaining := r.timeRemaining - 1 } = r2 := by
          simpa using h
        refine inv_processRoundRoom _ ?_ hph
        exact inv_players_congr hinv rfl rfl rfl rfl rfl (fun x => x)
      · obtain rfl : ({ r with timeRemaining := r.timeRemaining - 1 } : Room) = r2 := by
          simpa using h
        exact inv_players_congr hinv rfl rfl rfl rfl rfl (fun x => x)
    · simp at h
  | allSubmittedProcess =>
    simp only [applyEvent] at h
    split at h
    · rename_i hguard
      obtain rfl : processRoundRoom r = r2 := by simpa using h
      exact inv_processRoundRoom r hinv hguard.1
    · simp at h
  | scoreRound =>
    simp only [applyEvent] at h
    split at h
    · rename_i hph
      obtain rfl : processScoring r (revealData r).1 (revealData r).2 = r2 := by simpa using h
      obtain ⟨K, s1, s2, s3, s4, s5⟩ :=
        processScoring_spec r (revealData r).1 (revealData r).2 hnd
      have hbase : r.eliminationCount = countEliminated r.players :=
        hc (by rw [hph]; simp) (by rw [hph]; simp)
      refine ⟨?_, ?_, ?_, ?_⟩
      · rw [s3]; exact hnd
      · intro hx; rw [s1] at hx; simp at hx
      · intro _ _
        rw [s4, s5, hbase]
      · intro hx
        rw [s1] at hx
        rcases hx with hx | hx | hx <;> simp at hx
    · simp at h
  | afterScoring now =>
    simp only [applyEvent] at h
    split at h
    · rename_i hph
      split at h
      · obtain rfl : endGame r = r2 := by simpa using h
        exact inv_endGame r hinv
      · obtain rfl : startRound { r with roundNumber := r.roundNumber + 1 } now = r2 := by
          simpa using h
        have hbase : r.eliminationCount = countEliminated r.players :=
          hc (by rw [hph]; simp) (by rw [hph]; simp)
        refine inv_startRound _ now ?_ hbase
        exact inv_players_congr hinv rfl rfl rfl rfl rfl (fun x => x)
    · simp at h

theorem runTrace_inv (evts : List GEvent) :
    ∀ r r2 : Room, RoomInv r → runTrace r evts = some r2 → RoomInv r2 := by
  induction evts with
  | nil =>
    intro r r2 hinv h
    obtain rfl : r = r2 := by simpa [runTrace] using h
    exact hinv
  | cons e rest ih =>
    intro r r2 hinv h
    simp only [runTrace] at h
    cases he : applyEvent e r with
    | none => rw [he] at h; simp at h
    | some rmid =>
      rw [he] at h
      exact ih rmid r2 (applyEvent_inv he hinv) h

theorem createRoom_inv (lobbyId : String) (cfg : Option ℕ) (now : ℕ) :
    RoomInv (createRoom lobbyId cfg now) := by
  refine ⟨?_, ?_, ?_, ?_⟩
  · simp [createRoom]
  · intro _; exact ⟨rfl, by simp [createRoom]⟩
  · intro h1 _; exact absurd rfl h1
  · intro _; rfl

theorem reachable_inv (r : Room) (h : Reachable r) : RoomInv r := by
  obtain ⟨lobbyId, cfg, now, evts, hrun⟩ := h
  exact runTrace_inv evts _ r (createRoom_inv lobbyId cfg now) hrun

theorem findWinnerLoop_spec (w : ℚ) :
    ∀ (l : List Choice) (u : String) (d : ℚ),
      (findWinnerLoop w l (some u) (some d) = some u ∧ ∀ c ∈ l, d ≤ |c.number - w|) ∨
      (∃ pre c suf, l = pre ++ c :: suf ∧
        findWinnerLoop w l (some u) (some d) = some c.userId ∧
        |c.number - w| < d ∧
        (∀ c2 ∈ l, |c.number - w| ≤ |c2.number - w|) ∧
        (∀ c2 ∈ pre, |c.number - w| < |c2.number - w|)) := by
  intro l
  induction l with
  | nil => intro u d; left; exact ⟨rfl, by simp⟩
  | cons c rest ih =>
    intro u d
    by_cases hlt : |c.number - w| < d
    · have hstep : findWinnerLoop w (c :: rest) (some u) (some d) =
          findWinnerLoop w rest (some c.userId) (some |c.number - w|) := by
        simp [findWinnerLoop, hlt]
      rcases ih c.userId |c.number - w| with ⟨heq, hall⟩ |
          ⟨pre, c2, suf, hdec, heq, hlt2, hmin, hpre⟩
      · right
        refine ⟨[], c, rest, rfl, by rw [hstep]; exact heq, hlt, ?_, by simp⟩
        intro c2 hc2
        rcases List.mem_cons.1 hc2 with hx | hx
        · subst hx; exact le_refl _
        · exact hall c2 hx
      · right
        refine ⟨c :: pre, c2, suf, by simp [hdec], by rw [hstep]; exact heq,
          lt_trans hlt2 hlt, ?_, ?_⟩
        · intro c3 hc3
          rcases List.mem_cons.1 hc3 with hx | hx
          · subst hx; exact le_of_lt hlt2
          · exact hmin c3 hx
        · intro c3 hc3
          rcases List.mem_cons.1 hc3 with hx | hx
          · subst hx; exact hlt2
          · exact hpre c3 hx
    · have hle : d ≤ |c.number - w| := not_lt.1 hlt
      have hstep : findWinnerLoop w (c :: rest) (some u) (some d) =
          findWinnerLoop w rest (some u) (some d) := by
        simp [findWinnerLoop, hlt]
      rcases ih u d with ⟨heq, hall⟩ | ⟨pre, c2, suf, hdec, heq, hlt2, hmin, hpre⟩
      · left
        refine ⟨by rw [hstep]; exact heq, ?_⟩
        intro c2 hc2
        rcases List.mem_cons.1 hc2 with hx | hx
        · subst hx; exact hle
        · exact hall c2 hx
      · right
        refine ⟨c :: pre, c2, suf, by simp [hdec], by rw [hstep]; exact heq, hlt2, ?_, ?_⟩
        · intro c3 hc3
          rcases List.mem_cons.1 hc3 with hx | hx
          · subst hx; exact le_of_lt (lt_of_lt_of_le hlt2 hle)
          · exact hmin c3 hx
        · intro c3 hc3
          rcases List.mem_cons.1 hc3 with hx | hx
          · subst hx; exact lt_of_lt_of_le hlt2 hle
          · exact hpre c3 hx

/-- C3: for every non-empty choice list, findWinner returns the user id
of a choice whose distance to the winning number is minimal over the
list, and every choice encountered before it has strictly larger
distance, so an exact tie resolves to the first candidate in
submission-evaluation order. -/
theorem findWinner_spec (players : List Player) (choices : List Choice) (wn : ℚ)
    (h : choices ≠ []) :
    ∃ pre c suf, choices = pre ++ c :: suf ∧
      findWinner players choices wn = some c.userId ∧
      (∀ c2 ∈ choices, |c.number - wn| ≤ |c2.number - wn|) ∧
      (∀ c2 ∈ pre, |c.number - wn| < |c2.number - wn|) := by
  cases choices with
  | nil => exact absurd rfl h
  | cons c rest =>
    have hstep : findWinner players (c :: rest) wn =
        findWinnerLoop wn rest (some c.userId) (some |c.number - wn|) := by
      simp [findWinner, findWinnerLoop]
    rcases findWinnerLoop_spec wn rest c.userId |c.number - wn| with ⟨heq, hall⟩ |
        ⟨pre, c2, suf, hdec, heq, hlt2, hmin, hpre⟩
    · refine ⟨[], c, rest, rfl, by rw [hstep]; exact heq, ?_, by simp⟩
      intro c2 hc2
      rcases List.mem_cons.1 hc2 with hx | hx
      · subst hx; exact le_refl _
      · exact hall c2 hx
    · refine ⟨c :: pre, c2, suf, by simp [hdec], by rw [hstep]; exact heq, ?_, ?_⟩
      · intro c3 hc3
        rcases List.mem_cons.1 hc3 with hx | hx
        · subst hx; exact le_of_lt hlt2
        · exact hmin c3 hx
      · intro c3 hc3
        rcases List.mem_cons.1 hc3 with hx | hx
        · subst hx; exact hlt2
        · exact hpre c3 hx

/-- Witness for C3 at the concrete list [10 by a, 20 by b] and winning
number 16: the theorem applies and its hypothesis is discharged. -/
theorem findWinner_spec_witness :
    ([⟨10, "a"⟩, ⟨20, "b"⟩] : List Choice) ≠ [] ∧
    ∃ pre c suf, ([⟨10, "a"⟩, ⟨20, "b"⟩] : List Choice) = pre ++ c :: suf ∧
      findWinner [] [⟨10, "a"⟩, ⟨20, "b"⟩] 16 = some c.userId ∧
      (∀ c2 ∈ ([⟨10, "a"⟩, ⟨20, "b"⟩] : List Choice),
        |c.number - 16| ≤ |c2.number - 16|) ∧
      (∀ c2 ∈ pre, |c.number - 16| < |c2.number - 16|) :=
  ⟨by simp, findWinner_spec [] [⟨10, "a"⟩, ⟨20, "b"⟩] 16 (by simp)⟩

/-- C4: the special win is consulted only when rule 3 is active (without
it the distance winner stands); with rule 3 active and a 0 and a 100
both submitted, the first submitter of 100 in evaluation order wins,
overriding the distance-based winner. -/
theorem selectWinner_spec :
    (∀ (rules : List ℕ) (players : List Player) (choices : List Choice) (wn : ℚ),
      3 ∉ rules → selectWinner rules players choices wn = findWinner players choices wn) ∧
    (∀ (rules : List ℕ) (players : List Player) (choices : List Choice) (wn : ℚ),
      3 ∈ rules → (∃ c ∈ choices, c.number = 0) → (∃ c ∈ choices, c.number = 100) →
      ∃ pre c suf, choices = pre ++ c :: suf ∧ c.number = 100 ∧
        (∀ x ∈ pre, x.number ≠ 100) ∧
        selectWinner rules players choices wn = some c.userId) := by
  constructor
  · intro rules players choices wn h3
    have hc : rules.contains 3 = false := by
      by_cases hx : rules.contains 3
      · exact absurd (by simpa using hx) h3
      · simpa using hx
    simp [selectWinner, hc, h3]
  · intro rules players choices wn h3 h0 h100
    have hc : rules.contains 3 = true := by simpa using h3
    have hz : choices.any (fun c => c.number == 0) = true := by
      obtain ⟨c, hcmem, hcn⟩ := h0
      simp only [List.any_eq_true]
      exact ⟨c, hcmem, by simp [hcn]⟩
    have hh : choices.any (fun c => c.number == 100) = true := by
      obtain ⟨c, hcmem, hcn⟩ := h100
      simp only [List.any_eq_true]
      exact ⟨c, hcmem, by simp [hcn]⟩
    have hfind : ∃ winner, choices.find? (fun c => c.number == 100) = some winner := by
      have hsome : (choices.find? (fun c => c.number == 100)).isSome := by
        rw [List.find?_isSome]
        obtain ⟨c, hcmem, hcn⟩ := h100
        exact ⟨c, hcmem, by simp [hcn]⟩
      exact Option.isSome_iff_exists.1 hsome
    obtain ⟨winner, hw⟩ := hfind
    obtain ⟨pre, suf, hdec, hq, hpre⟩ := find?_decomp _ choices winner hw
    refine ⟨pre, winner, suf, hdec, by simpa using hq, ?_, ?_⟩
    · intro x hx
      have hfx := hpre x hx
      simpa using hfx
    · simp [selectWinner, hc, checkSpecialWin, hz, hh, hw, h3]

/-- Witness for C4 at rules 1,2,3 and choices 0 by z, 50 by y, 100 by w:
both hypotheses hold and the theorem yields the special winner. -/
theorem selectWinner_spec_witness :
    (3 ∈ ([1, 2, 3] : List ℕ)) ∧
    ∃ pre c suf, ([⟨0, "z"⟩, ⟨50, "y"⟩, ⟨100, "w"⟩] : List Choice) = pre ++ c :: suf ∧
      c.number = 100 ∧ (∀ x ∈ pre, x.number ≠ 100) ∧
      selectWinner [1, 2, 3] [] [⟨0, "z"⟩, ⟨50, "y"⟩, ⟨100, "w"⟩] 40 = some c.userId :=
  ⟨by simp, selectWinner_spec.2 [1, 2, 3] [] [⟨0, "z"⟩, ⟨50, "y"⟩, ⟨100, "w"⟩] 40
    (by simp) ⟨⟨0, "z"⟩, by simp, rfl⟩ ⟨⟨100, "w"⟩, by simp, rfl⟩⟩

/-- C5: the validation submitChoice runs rejects exactly the values
outside the 0 to 100 range and, when rule 1 is active, values equal to
the stored choice of another already-submitted non-eliminated player;
everything else, integer or not, passes. -/
theorem validateChoice_spec (room : Room) (userId : String) (choice : ℚ) :
    (validateChoice choice (collectOtherChoices room userId)
        room.activeRules userId).valid = false ↔
      (choice < 0 ∨ choice > 100) ∨
      (1 ∈ room.activeRules ∧ ∃ p ∈ room.players, p.hasSubmitted = true ∧
        p.userId ≠ userId ∧ p.isEliminated = false ∧
        p.currentChoice.getD 0 = choice) := by
  unfold validateChoice
  split
  · rename_i hrange
    simp only [show (false = false) = True by simp, true_iff]
    exact Or.inl hrange
  · rename_i hrange
    split
    · rename_i hcont
      split
      · rename_i c hfind
        simp only [show (false = false) = True by simp, true_iff]
        refine Or.inr ⟨by simpa using hcont, ?_⟩
        obtain ⟨pre, suf, hdec, hq, _⟩ := find?_decomp _ _ _ hfind
        have hcmem : c ∈ collectOtherChoices room userId := by
          rw [hdec]
          exact List.mem_append_right _ (List.mem_cons_self _ _)
        unfold collectOtherChoices at hcmem
        obtain ⟨p, hpf, hpc⟩ := List.mem_map.1 hcmem
        obtain ⟨hpmem, hpcond⟩ := List.mem_filter.1 hpf
        simp only [Bool.and_eq_true, bne_iff_ne, Bool.not_eq_true'] at hpcond
        obtain ⟨⟨hsub, hne⟩, helim⟩ := hpcond
        simp only [Bool.and_eq_true] at hq
        refine ⟨p, hpmem, hsub, hne, helim, ?_⟩
        have hnum : c.number = choice := by simpa using hq.1
        rw [← hpc] at hnum
        exact hnum
      · rename_i hfind
        simp only [show (true = false) = False by simp, false_iff]
        intro hcontra
        rcases hcontra with hx | ⟨_, p, hpmem, hsub, hne, helim, hch⟩
        · exact hrange hx
        · have hcmem : (⟨p.currentChoice.getD 0, p.userId⟩ : Choice) ∈
              collectOtherChoices room userId := by
            unfold collectOtherChoices
            refine List.mem_map.2 ⟨p, List.mem_filter.2 ⟨hpmem, ?_⟩, rfl⟩
            simp [hsub, hne, helim]
          have hall := List.find?_eq_none.1 hfind _ hcmem
          apply hall
          simp [hch, hne]
    · rename_i hcont
      simp only [show (true = false) = False by simp, false_iff]
      intro hcontra
      rcases hcontra with hx | ⟨h1, _⟩
      · exact hrange hx
      · exact hcont (by simpa using h1)

/-- C1: for a non-empty choice list, calculateWinningNumber returns the
exact rational average sum over count, and the winning number is that
average times 0.8, with no rounding in between. -/
theorem calculateWinningNumber_exact (choices : List Choice) (_h : choices ≠ []) :
    calculateWinningNumber choices =
      ((choices.map Choice.number).sum / (choices.length : ℚ),
        (choices.map Choice.number).sum / (choices.length : ℚ) * 0.8) := by
  unfold calculateWinningNumber
  rw [foldl_add_number, zero_add]

/-- Witness for C1 at the single choice 3 by a. -/
theorem calculateWinningNumber_exact_witness :
    calculateWinningNumber [⟨3, "a"⟩] =
      ((([⟨3, "a"⟩] : List Choice).map Choice.number).sum /
          (([⟨3, "a"⟩] : List Choice).length : ℚ),
        (([⟨3, "a"⟩] : List Choice).map Choice.number).sum /
          (([⟨3, "a"⟩] : List Choice).length : ℚ) * 0.8) :=
  calculateWinningNumber_exact [⟨3, "a"⟩] (by simp)

/-- C2: applyScoreChanges records, for every player of the list, a zero
delta with unchanged score when the player is eliminated, a +1 delta for
the winner, and otherwise the penalty delta: -2 when the round had an
exact match and rule 2 is active, else -1. -/
theorem applyScoreChanges_spec (players : List Player) (winnerId : Option String)
    (isExactMatch : Bool) (activeRules : List ℕ) (p : Player) (hp : p ∈ players) :
    ∃ u : ScoreUpdate,
      (p.userId, u) ∈ applyScoreChanges players winnerId isExactMatch activeRules ∧
      (p.isEliminated = true → u.scoreChange = 0 ∧ u.newScore = p.score) ∧
      (p.isEliminated = false → some p.userId = winnerId →
        u.scoreChange = 1 ∧ u.newScore = p.score + 1) ∧
      (p.isEliminated = false → some p.userId ≠ winnerId →
        u.scoreChange = (if isExactMatch = true ∧ 2 ∈ activeRules then -2 else -1) ∧
        u.newScore = p.score + u.scoreChange) := by
  have hpen : (if isExactMatch && activeRules.contains 2 then (-2 : ℤ) else -1) =
      (if isExactMatch = true ∧ 2 ∈ activeRules then (-2 : ℤ) else -1) := by
    by_cases h1 : isExactMatch = true ∧ 2 ∈ activeRules
    · rw [if_pos h1, if_pos]
      simp [h1.1, h1.2]
    · rw [if_neg h1, if_neg]
      intro hx
      simp only [Bool.and_eq_true] at hx
      exact h1 ⟨hx.1, by simpa using hx.2⟩
  by_cases helim : p.isEliminated
  · refine ⟨⟨0, p.score⟩, ?_, ?_, ?_, ?_⟩
    · unfold applyScoreChanges
      refine List.mem_map.2 ⟨p, hp, ?_⟩
      simp [helim]
    · intro _; exact ⟨rfl, rfl⟩
    · intro hx; exact absurd helim (by simp [hx])
    · intro hx; exact absurd helim (by simp [hx])
  · by_cases hwin : some p.userId = winnerId
    · refine ⟨⟨1, p.score + 1⟩, ?_, ?_, ?_, ?_⟩
      · unfold applyScoreChanges
        refine List.mem_map.2 ⟨p, hp, ?_⟩
        simp [helim, hwin]
      · intro hx; exact absurd hx (by simpa using helim)
      · intro _ _; exact ⟨rfl, rfl⟩
      · intro _ hx; exact absurd hwin hx
    · refine ⟨⟨if isExactMatch = true ∧ 2 ∈ activeRules then -2 else -1,
        p.score + if isExactMatch = true ∧ 2 ∈ activeRules then -2 else -1⟩,
        ?_, ?_, ?_, ?_⟩
      · unfold applyScoreChanges
        refine List.mem_map.2 ⟨p, hp, ?_⟩
        simp only [Bool.not_eq_true] at helim
        rw [hpen]
        simp [helim, hwin]
      · intro hx; exact absurd hx (by simpa using helim)
      · intro _ hx; exact absurd hx hwin
      · intro _ _; exact ⟨rfl, rfl⟩

/-- Witness for C2: a two-player list with an eliminated player and the
winner, at an exact match with rule 2 active. -/
theorem applyScoreChanges_spec_witness :
    ∃ u : ScoreUpdate,
      ((demoPlayer "B" "s2" (-3) true false none true).userId, u) ∈
        applyScoreChanges
          [demoPlayer "A" "s1" 2 true false none false,
            demoPlayer "B" "s2" (-3) true false none true]
          (some "A") true [1, 2] ∧
      ((demoPlayer "B" "s2" (-3) true false none true).isEliminated = true →
        u.scoreChange = 0 ∧ u.newScore = (demoPlayer "B" "s2" (-3) true false none true).score) ∧
      ((demoPlayer "B" "s2" (-3) true false none true).isEliminated = false →
        some (demoPlayer "B" "s2" (-3) true false none true).userId = some "A" →
        u.scoreChange = 1 ∧
          u.newScore = (demoPlayer "B" "s2" (-3) true false none true).score + 1) ∧
      ((demoPlayer "B" "s2" (-3) true false none true).isEliminated = false →
        some (demoPlayer "B" "s2" (-3) true false none true).userId ≠ some "A" →
        u.scoreChange = (if (true : Bool) = true ∧ 2 ∈ ([1, 2] : List ℕ) then -2 else -1) ∧
        u.newScore = (demoPlayer "B" "s2" (-3) true false none true).score + u.scoreChange) :=
  applyScoreChanges_spec
    [demoPlayer "A" "s1" 2 true false none false,
      demoPlayer "B" "s2" (-3) true false none true]
    (some "A") true [1, 2] (demoPlayer "B" "s2" (-3) true false none true) (by simp)

/-- C6 counterexample: a failed submission outside the submission phase
is a validation error, yet the room state is mutated, because
submitChoice refreshes the last-activity timestamp before any check. -/
theorem submitChoice_error_mutates :
    (submitChoice (createRoom "W" none 0) "u" 5 7).2.1.success = false ∧
    (submitChoice (createRoom "W" none 0) "u" 5 7).1 ≠ createRoom "W" none 0 := by
  constructor
  · rfl
  · intro h
    have hx : (submitChoice (createRoom "W" none 0) "u" 5 7).1.lastActivity =
        (createRoom "W" none 0).lastActivity := by rw [h]
    simp [submitChoice, createRoom] at hx

/-- C6 amended: every validation error of submitChoice is reported only
in the returned result, with no broadcast, and the only state change is
the refresh of the room last-activity timestamp; the player list and
every other room field are untouched. -/
theorem submitChoice_error_spec (room : Room) (userId : String) (choice : ℚ) (now : ℕ)
    (h : (submitChoice room userId choice now).2.1.success = false) :
    (submitChoice room userId choice now).2.2 = [] ∧
    (submitChoice room userId choice now).1 = { room with lastActivity := now } := by
  revert h
  simp only [submitChoice]
  split
  · intro _; exact ⟨rfl, rfl⟩
  · split
    · intro _; exact ⟨rfl, rfl⟩
    · split
      · intro _; exact ⟨rfl, rfl⟩
      · split
        · intro _; exact ⟨rfl, rfl⟩
        · split
          · intro _; exact ⟨rfl, rfl⟩
          · split
            · intro _; exact ⟨rfl, rfl⟩
            · intro h; exact absurd h (by simp)

/-- Witness for C6 amended: the phase-check failure in a waiting room. -/
theorem submitChoice_error_spec_witness :
    (submitChoice (createRoom "W" none 0) "u" 5 7).2.1.success = false ∧
    (submitChoice (createRoom "W" none 0) "u" 5 7).2.2 = [] ∧
    (submitChoice (createRoom "W" none 0) "u" 5 7).1 =
      { createRoom "W" none 0 with lastActivity := 7 } :=
  ⟨rfl, submitChoice_error_spec (createRoom "W" none 0) "u" 5 7 rfl⟩

/-- C8: removing the last player of a waiting room deletes the room and
returns the removed player; during an active game (phase neither waiting
nor finished) the player is instead kept in place, marked disconnected
with the timestamp recorded and the socket reference cleared, and the
room survives. -/
theorem removePlayerFromRoom_spec :
    (∀ (room : Room) (p : Player) (sid : String) (now : ℕ),
      room.phase = .waiting → room.players = [p] → p.socketId = some sid →
      removePlayerFromRoom room sid now = (none, some p)) ∧
    (∀ (room : Room) (pre : List Player) (p : Player) (suf : List Player)
        (sid : String) (now : ℕ),
      room.phase ≠ .waiting → room.phase ≠ .finished →
      room.players = pre ++ p :: suf →
      (∀ q ∈ pre, q.socketId ≠ some sid) → p.socketId = some sid →
      removePlayerFromRoom room sid now =
        (some { room with players := pre ++ markDisconnected p now :: suf },
          some (markDisconnected p now))) := by
  constructor
  · intro room p sid now hph hpl hsid
    have hsp : splitBy (fun q => q.socketId == some sid) room.players = some ([], p, []) := by
      rw [hpl]
      simp [splitBy, hsid]
    simp only [removePlayerFromRoom, hsp]
    rw [if_neg (fun hx => hx.1 hph)]
    rw [if_pos ⟨by simp, hph⟩]
  · intro room pre p suf sid now hw hf hpl hpre hsid
    have hsp : splitBy (fun q => q.socketId == some sid) room.players =
        some (pre, p, suf) := by
      rw [hpl]
      exact splitBy_append_of _ p (by simp [hsid]) pre
        (fun x hx => by simpa using hpre x hx) suf
    simp only [removePlayerFromRoom, hsp]
    rw [if_pos ⟨hw, hf⟩]

/-- Witness for C8: both parts at concrete rooms, a one-player waiting
room and the three-player demo game in the submission phase. -/
theorem removePlayerFromRoom_spec_witness :
    removePlayerFromRoom
        { createRoom "W" none 0 with players := [demoPlayer "A" "s1" 0 false false none false] }
        "s1" 5 = (none, some (demoPlayer "A" "s1" 0 false false none false)) ∧
    removePlayerFromRoom (mkRound 0 0 0 1) "s1" 5 =
      (some { mkRound 0 0 0 1 with players := ([] ++ markDisconnected (demoPlayer "A" "s1" 0 true false none false) 5 :: [demoPlayer "B" "s2" 0 true false none false, demoPlayer "C" "s3" 0 true false none false]) },
        some (markDisconnected (demoPlayer "A" "s1" 0 true false none false) 5)) :=
  ⟨removePlayerFromRoom_spec.1
      { createRoom "W" none 0 with players := [demoPlayer "A" "s1" 0 false false none false] }
      (demoPlayer "A" "s1" 0 false false none false) "s1" 5 rfl rfl rfl,
    removePlayerFromRoom_spec.2 (mkRound 0 0 0 1) []
      (demoPlayer "A" "s1" 0 true false none false)
      [demoPlayer "B" "s2" 0 true false none false,
        demoPlayer "C" "s3" 0 true false none false]
      "s1" 5 (by simp [mkRound]) (by simp [mkRound]) rfl (by simp) rfl⟩

/-- C10: processRound never divides by a zero choice count: with no
gathered choices it ends the game before any average is computed, and a
reveal outcome always carries the average and winning number of the
non-empty gathered choice list. -/
theorem processRound_safe_division (room : Room) :
    (gatherChoices room = [] →
      processRound room = .ended (endGame { room with phase := .reveal })) ∧
    (∀ r2 avg wn wid m, processRound room = .revealed r2 avg wn wid m →
      gatherChoices room ≠ [] ∧ 0 < (gatherChoices room).length ∧
      (avg, wn) = calculateWinningNumber (gatherChoices room)) := by
  have hg : gatherChoices { room with phase := Phase.reveal } = gatherChoices room := rfl
  constructor
  · intro h
    simp only [processRound]
    rw [if_pos (by rw [hg, h]; rfl)]
  · intro r2 avg wn wid m h
    simp only [processRound] at h
    split at h
    · simp at h
    · split at h
      · simp at h
      · rename_i hne hne2
        have hne3 : ¬(gatherChoices room).length = 0 := hne
        cases hc : calculateWinningNumber (gatherChoices { room with phase := Phase.reveal }) with
        | mk a b =>
          rw [hc] at h
          simp only [ProcessRoundResult.revealed.injEq] at h
          obtain ⟨h1, h2, h3, h4, h5⟩ := h
          refine ⟨?_, Nat.pos_of_ne_zero hne3, ?_⟩
          · intro hx
            exact hne3 (by rw [hx]; rfl)
          · rw [← h2, ← h3]
            exact hc.symm

/-- Witness for C10: the empty room gathers no choices, so the first
part of the theorem applies with its hypothesis discharged. -/
theorem processRound_safe_division_witness :
    gatherChoices (createRoom "X" none 0) = [] ∧
    processRound (createRoom "X" none 0) =
      .ended (endGame { createRoom "X" none 0 with phase := .reveal }) :=
  ⟨rfl, (processRound_safe_division (createRoom "X" none 0)).1 rfl⟩

theorem demoWinningNumber : ((4 : ℚ) + 10 + 10) / 3 * 0.8 = 32 / 5 := by norm_num

theorem demoCmp : (|(10 : ℚ) - 32 / 5| < |(4 : ℚ) - 32 / 5|) = False := by
  rw [show (10 : ℚ) - 32 / 5 = 18 / 5 by norm_num,
    show (4 : ℚ) - 32 / 5 = -(12 / 5) by norm_num]
  rw [abs_of_nonneg (by norm_num), abs_neg, abs_of_nonneg (by norm_num)]
  norm_num

theorem demoRange4 : ((4 : ℚ) < 0 ∨ (4 : ℚ) > 100) = False := by norm_num

theorem demoRange10 : ((10 : ℚ) < 0 ∨ (10 : ℚ) > 100) = False := by norm_num

theorem demoExact4 : ((4 : ℚ) == 32 / 5) = false := by
  rw [beq_eq_false_iff_ne]; norm_num

theorem demoExact10 : ((10 : ℚ) == 32 / 5) = false := by
  rw [beq_eq_false_iff_ne]; norm_num

theorem setup_eval : runTrace (createRoom "L" none 0) setupTrace = some (mkRound 0 0 0 1) := by
  decide

theorem demoRound1 : runTrace (mkRound 0 0 0 1) roundEvents = some (mkRound 1 (-1) (-1) 2) := by
  simp [runTrace, applyEvent, roundEvents, submitChoice, validateChoice,
    collectOtherChoices, splitBy, updateFirst, processRoundRoom, processRound,
    gatherChoices, revealData, selectWinner, calculateWinningNumber, findWinner,
    findWinnerLoop, checkExactMatch, checkSpecialWin, processScoring,
    applyScoreChanges, objGet, checkEliminations, elimStep, isGameOver,
    startRound, endGame, getActiveRules, mkRound, demoPlayer,
    demoWinningNumber, demoCmp, demoRange4, demoRange10, demoExact4, demoExact10]

theorem demoRound2 : runTrace (mkRound 1 (-1) (-1) 2) roundEvents =
    some (mkRound 2 (-2) (-2) 3) := by
  simp [runTrace, applyEvent, roundEvents, submitChoice, validateChoice,
    collectOtherChoices, splitBy, updateFirst, processRoundRoom, processRound,
    gatherChoices, revealData, selectWinner, calculateWinningNumber, findWinner,
    findWinnerLoop, checkExactMatch, checkSpecialWin, processScoring,
    applyScoreChanges, objGet, checkEliminations, elimStep, isGameOver,
    startRound, endGame, getActiveRules, mkRound, demoPlayer,
    demoWinningNumber, demoCmp, demoRange4, demoRange10, demoExact4, demoExact10]

theorem demoRound3 : runTrace (mkRound 2 (-2) (-2) 3) roundEvents =
    some (mkRound 3 (-3) (-3) 4) := by
  simp [runTrace, applyEvent, roundEvents, submitChoice, validateChoice,
    collectOtherChoices, splitBy, updateFirst, processRoundRoom, processRound,
    gatherChoices, revealData, selectWinner, calculateWinningNumber, findWinner,
    findWinnerLoop, checkExactMatch, checkSpecialWin, processScoring,
    applyScoreChanges, objGet, checkEliminations, elimStep, isGameOver,
    startRound, endGame, getActiveRules, mkRound, demoPlayer,
    demoWinningNumber, demoCmp, demoRange4, demoRange10, demoExact4, demoExact10]

theorem demoRound4 : runTrace (mkRound 3 (-3) (-3) 4) roundEvents =
    some (mkRound 4 (-4) (-4) 5) := by
  simp [runTrace, applyEvent, roundEvents, submitChoice, validateChoice,
    collectOtherChoices, splitBy, updateFirst, processRoundRoom, processRound,
    gatherChoices, revealData, selectWinner, calculateWinningNumber, findWinner,
    findWinnerLoop, checkExactMatch, checkSpecialWin, processScoring,
    applyScoreChanges, objGet, checkEliminations, elimStep, isGameOver,
    startRound, endGame, getActiveRules, mkRound, demoPlayer,
    demoWinningNumber, demoCmp, demoRange4, demoRange10, demoExact4, demoExact10]

theorem demoRound5 : runTrace (mkRound 4 (-4) (-4) 5) roundEvents =
    some (mkRound 5 (-5) (-5) 6) := by
  simp [runTrace, applyEvent, roundEvents, submitChoice, validateChoice,
    collectOtherChoices, splitBy, updateFirst, processRoundRoom, processRound,
    gatherChoices, revealData, selectWinner, calculateWinningNumber, findWinner,
    findWinnerLoop, checkExactMatch, checkSpecialWin, processScoring,
    applyScoreChanges, objGet, checkEliminations, elimStep, isGameOver,
    startRound, endGame, getActiveRules, mkRound, demoPlayer,
    demoWinningNumber, demoCmp, demoRange4, demoRange10, demoExact4, demoExact10]

theorem demoRound6 : runTrace (mkRound 5 (-5) (-5) 6) roundEvents =
    some (mkRound 6 (-6) (-6) 7) := by
  simp [runTrace, applyEvent, roundEvents, submitChoice, validateChoice,
    collectOtherChoices, splitBy, updateFirst, processRoundRoom, processRound,
    gatherChoices, revealData, selectWinner, calculateWinningNumber, findWinner,
    findWinnerLoop, checkExactMatch, checkSpecialWin, processScoring,
    applyScoreChanges, objGet, checkEliminations, elimStep, isGameOver,
    startRound, endGame, getActiveRules, mkRound, demoPlayer,
    demoWinningNumber, demoCmp, demoRange4, demoRange10, demoExact4, demoExact10]

theorem demoRound7 : runTrace (mkRound 6 (-6) (-6) 7) roundEvents =
    some (mkRound 7 (-7) (-7) 8) := by
  simp [runTrace, applyEvent, roundEvents, submitChoice, validateChoice,
    collectOtherChoices, splitBy, updateFirst, processRoundRoom, processRound,
    gatherChoices, revealData, selectWinner, calculateWinningNumber, findWinner,
    findWinnerLoop, checkExactMatch, checkSpecialWin, processScoring,
    applyScoreChanges, objGet, checkEliminations, elimStep, isGameOver,
    startRound, endGame, getActiveRules, mkRound, demoPlayer,
    demoWinningNumber, demoCmp, demoRange4, demoRange10, demoExact4, demoExact10]

theorem demoRound8 : runTrace (mkRound 7 (-7) (-7) 8) roundEvents =
    some (mkRound 8 (-8) (-8) 9) := by
  simp [runTrace, applyEvent, roundEvents, submitChoice, validateChoice,
    collectOtherChoices, splitBy, updateFirst, processRoundRoom, processRound,
    gatherChoices, revealData, selectWinner, calculateWinningNumber, findWinner,
    findWinnerLoop, checkExactMatch, checkSpecialWin, processScoring,
    applyScoreChanges, objGet, checkEliminations, elimStep, isGameOver,
    startRound, endGame, getActiveRules, mkRound, demoPlayer,
    demoWinningNumber, demoCmp, demoRange4, demoRange10, demoExact4, demoExact10]

theorem demoRound9 : runTrace (mkRound 8 (-8) (-8) 9) roundEvents =
    some (mkRound 9 (-9) (-9) 10) := by
  simp [runTrace, applyEvent, roundEvents, submitChoice, validateChoice,
    collectOtherChoices, splitBy, updateFirst, processRoundRoom, processRound,
    gatherChoices, revealData, selectWinner, calculateWinningNumber, findWinner,
    findWinnerLoop, checkExactMatch, checkSpecialWin, processScoring,
    applyScoreChanges, objGet, checkEliminations, elimStep, isGameOver,
    startRound, endGame, getActiveRules, mkRound, demoPlayer,
    demoWinningNumber, demoCmp, demoRange4, demoRange10, demoExact4, demoExact10]

theorem demoRound10 : runTrace (mkRound 9 (-9) (-9) 10) lastRoundEvents =
    some staleRulesRoom := by
  simp [runTrace, applyEvent, lastRoundEvents, submitChoice, validateChoice,
    collectOtherChoices, splitBy, updateFirst, processRoundRoom, processRound,
    gatherChoices, revealData, selectWinner, calculateWinningNumber, findWinner,
    findWinnerLoop, checkExactMatch, checkSpecialWin, processScoring,
    applyScoreChanges, objGet, checkEliminations, elimStep, isGameOver,
    startRound, endGame, getActiveRules, mkRound, demoPlayer, staleRulesRoom,
    demoWinningNumber, demoCmp, demoRange4, demoRange10, demoExact4, demoExact10]

theorem reachable_staleRulesRoom : Reachable staleRulesRoom := by
  refine ⟨"L", none, 0,
    setupTrace ++ (roundEvents ++ (roundEvents ++ (roundEvents ++ (roundEvents ++
      (roundEvents ++ (roundEvents ++ (roundEvents ++ (roundEvents ++
      (roundEvents ++ lastRoundEvents))))))))), ?_⟩
  rw [runTrace_chain _ setup_eval]
  rw [runTrace_chain _ demoRound1]
  rw [runTrace_chain _ demoRound2]
  rw [runTrace_chain _ demoRound3]
  rw [runTrace_chain _ demoRound4]
  rw [runTrace_chain _ demoRound5]
  rw [runTrace_chain _ demoRound6]
  rw [runTrace_chain _ demoRound7]
  rw [runTrace_chain _ demoRound8]
  rw [runTrace_chain _ demoRound9]
  exact demoRound10

/-- C7 counterexample: a reachable scoring-phase state, produced by a
ten-round game in which two players reach -10 in the same round, whose
elimination counter is 2 while its active rules are still empty, so the
claimed invariant fails there. -/
theorem staleRules_counterexample :
    Reachable staleRulesRoom ∧
    staleRulesRoom.activeRules ≠ getActiveRules staleRulesRoom.eliminationCount :=
  ⟨reachable_staleRulesRoom, by decide⟩

/-- C7 amended: in every reachable room state whose phase is waiting,
submission, or reveal, the active rules equal the rule-unlock function
of the elimination count; during scoring, after new eliminations, the
rules may lag until the next round recomputes them. -/
theorem activeRules_consistent (r : Room) (h : Reachable r)
    (hph : r.phase = .waiting ∨ r.phase = .submission ∨ r.phase = .reveal) :
    r.activeRules = getActiveRules r.eliminationCount :=
  (reachable_inv r h).2.2.2 hph

/-- Witness for the amended C7: a freshly created room, reachable by the
empty trace, in the waiting phase. -/
theorem activeRules_consistent_witness :
    Reachable (createRoom "L0" none 0) ∧
    ((createRoom "L0" none 0).phase = .waiting ∨
      (createRoom "L0" none 0).phase = .submission ∨
      (createRoom "L0" none 0).phase = .reveal) ∧
    (createRoom "L0" none 0).activeRules =
      getActiveRules (createRoom "L0" none 0).eliminationCount :=
  ⟨⟨"L0", none, 0, [], rfl⟩, Or.inl rfl,
    activeRules_consistent (createRoom "L0" none 0) ⟨"L0", none, 0, [], rfl⟩ (Or.inl rfl)⟩

/-- C9: in every reachable room state in an active phase (submission,
reveal or scoring), the elimination counter equals the number of players
whose eliminated flag is set. -/
theorem eliminationCount_matches_flags (r : Room) (h : Reachable r)
    (hph : r.phase = .submission ∨ r.phase = .reveal ∨ r.phase = .scoring) :
    r.eliminationCount = countEliminated r.players := by
  have hinv := reachable_inv r h
  refine hinv.2.2.1 ?_ ?_
  · rcases hph with hx | hx | hx <;> rw [hx] <;> simp
  · rcases hph with hx | hx | hx <;> rw [hx] <;> simp

/-- Witness for C9: the three-player demo game right after the first
round started, reached by the setup trace. -/
theorem eliminationCount_matches_flags_witness :
    Reachable (mkRound 0 0 0 1) ∧
    ((mkRound 0 0 0 1).phase = .submission ∨ (mkRound 0 0 0 1).phase = .reveal ∨
      (mkRound 0 0 0 1).phase = .scoring) ∧
    (mkRound 0 0 0 1).eliminationCount = countEliminated (mkRound 0 0 0 1).players :=
  ⟨⟨"L", none, 0, setupTrace, setup_eval⟩, Or.inl rfl,
    eliminationCount_matches_flags (mkRound 0 0 0 1)
      ⟨"L", none, 0, setupTrace, setup_eval⟩ (Or.inl rfl)⟩

end BC
